import Mathlib

/-!
Verification development for the checkpoint-to-ryujinx save importer
(`checkpoint2ryujinx.py`).  The Python source is shallowly embedded:

* byte strings become `List Nat` (each element a byte value);
* Python strings become `List Char`;
* functions that can raise an uncaught exception return `Except Unit`
  (`.error ()` marks the exception), and functions whose failure is
  swallowed into `None` return `Option`;
* `struct.pack`/`struct.unpack` little-endian fields are spelled out with
  explicit `% 256` / division arithmetic.
-/

namespace Checkpoint2Ryujinx

/-- Byte strings are lists of byte values. -/
abbrev Bytes := List Nat

/-- An in-memory archive entry: `(key, value)` byte strings. -/
abbrev Entry := Bytes × Bytes

/-- Decidable equality for `Except`, so concrete runs can be checked by
`decide`. -/
instance {ε α : Type} [DecidableEq ε] [DecidableEq α] : DecidableEq (Except ε α) := fun a b =>
  match a, b with
  | .error e, .error f =>
    if h : e = f then .isTrue (by rw [h]) else .isFalse (by intro hh; injection hh; contradiction)
  | .error _, .ok _ => .isFalse (by intro hh; exact Except.noConfusion hh)
  | .ok _, .error _ => .isFalse (by intro hh; exact Except.noConfusion hh)
  | .ok x, .ok y =>
    if h : x = y then .isTrue (by rw [h]) else .isFalse (by intro hh; injection hh; contradiction)

/-- `struct.pack('<I', n)` for `n < 2^32`: four little-endian bytes. -/
def pack_u32le (n : Nat) : Bytes :=
  [n % 256, n / 256 % 256, n / 65536 % 256, n / 16777216 % 256]

/-- `struct.pack('<Q', n)` for `n < 2^64`: eight little-endian bytes. -/
def pack_u64le (n : Nat) : Bytes :=
  [n % 256, n / 256 % 256, n / 65536 % 256, n / 16777216 % 256,
   n / 4294967296 % 256, n / 1099511627776 % 256,
   n / 281474976710656 % 256, n / 72057594037927936 % 256]

/-- `struct.unpack('<I', b)`: requires exactly four bytes, else raises
`struct.error` (modelled as `.error ()`). -/
def unpack_u32le : Bytes → Except Unit Nat
  | [a, b, c, d] => .ok (a + 256 * b + 65536 * c + 16777216 * d)
  | _ => .error ()

/-- Little-endian value of a byte string (used for `struct.unpack('<Q', _)`
once the length-8 check has been made). -/
def unpack_le (bs : Bytes) : Nat :=
  bs.foldr (fun b acc => acc * 256 + b) 0

/-- The archive header magic `b'IMKV'`. -/
def IMKV : Bytes := [73, 77, 75, 86]

/-- The archive entry magic `b'IMEN'`. -/
def IMEN : Bytes := [73, 77, 69, 78]

/-- ASCII whitespace accepted by Python `int(s, 16)` around the numeral. -/
def isPyWs (c : Char) : Bool :=
  c.toNat = 32 || c.toNat = 9 || c.toNat = 10 || c.toNat = 13 ||
  c.toNat = 11 || c.toNat = 12

/-- Hexadecimal digit (`0-9`, `a-f`, `A-F`). -/
def isHexDigit (c : Char) : Bool :=
  (48 ≤ c.toNat && c.toNat ≤ 57) || (97 ≤ c.toNat && c.toNat ≤ 102) ||
  (65 ≤ c.toNat && c.toNat ≤ 70)

/-- Lowercase hexadecimal digit (`0-9`, `a-f`), the alphabet of
`format(_, '016x')` output. -/
def isLowerHexDigit (c : Char) : Bool :=
  (48 ≤ c.toNat && c.toNat ≤ 57) || (97 ≤ c.toNat && c.toNat ≤ 102)

/-- Value of a hexadecimal digit. -/
def hexVal (c : Char) : Nat :=
  if c.toNat ≤ 57 then c.toNat - 48
  else if c.toNat ≤ 70 then c.toNat - 55
  else c.toNat - 87

/-- `s.strip()` of the whitespace Python `int` tolerates. -/
def pyStrip (cs : List Char) : List Char :=
  ((cs.dropWhile isPyWs).reverse.dropWhile isPyWs).reverse

/-- Digit tail of a Python numeral: hex digits with single underscores
allowed between digits (`"1_2"` parses, `"1__2"`, `"1_"` do not). -/
def hexTail : List Char → Nat → Option Nat
  | [], acc => some acc
  | [c], acc => if isHexDigit c then some (acc * 16 + hexVal c) else none
  | c :: d :: rest, acc =>
    if isHexDigit c then hexTail (d :: rest) (acc * 16 + hexVal c)
    else if c.toNat = 95 ∧ isHexDigit d then hexTail rest (acc * 16 + hexVal d)
    else none

/-- Nonempty run of hex digits (with interior underscores). -/
def parseHexDigits : List Char → Option Nat
  | [] => none
  | c :: rest => if isHexDigit c then hexTail rest (hexVal c) else none

/-- A single underscore is allowed right after the `0x` prefix. -/
def dropPrefixUnderscore (cs : List Char) : List Char :=
  match cs with
  | r0 :: rtail => if r0.toNat = 95 then rtail else cs
  | [] => cs

/-- Body of a Python base-16 numeral after sign: optional `0x`/`0X` prefix,
then digits. -/
def pyIntHexCore (cs : List Char) : Option Nat :=
  match cs with
  | c0 :: c1 :: rest =>
    if c0.toNat = 48 && (c1.toNat = 120 || c1.toNat = 88) then
      parseHexDigits (dropPrefixUnderscore rest)
    else parseHexDigits cs
  | _ => parseHexDigits cs

/-- Python `int(s, 16)`: `some v` on success, `none` when `int` raises
`ValueError`. -/
def pythonIntHex (cs : List Char) : Option Int :=
  match pyStrip cs with
  | [] => none
  | c :: rest =>
    if c.toNat = 43 then (pyIntHexCore rest).map (fun n => (n : Int))
    else if c.toNat = 45 then (pyIntHexCore rest).map (fun n => -(n : Int))
    else (pyIntHexCore (c :: rest)).map (fun n => (n : Int))

/-- Big-endian value of a hex-digit string (`int(s, 16)` on plain digits). -/
def hexStrNat (cs : List Char) : Nat :=
  cs.foldl (fun acc c => acc * 16 + hexVal c) 0

/-- Python `str.lower()` restricted to ASCII. -/
def pyLower (cs : List Char) : List Char :=
  cs.map (fun c => if 65 ≤ c.toNat && c.toNat ≤ 90 then Char.ofNat (c.toNat + 32) else c)

/-- Lowercase hex digit character for a value below 16. -/
def hexDigitChar (n : Nat) : Char :=
  if n < 10 then Char.ofNat (48 + n) else Char.ofNat (87 + n)

/-- Little-endian hex digits of `n`, with fuel (fuel `n` always suffices). -/
def natToHexRevFuel : Nat → Nat → List Char
  | 0, _ => []
  | fuel + 1, n =>
    if n = 0 then [] else hexDigitChar (n % 16) :: natToHexRevFuel fuel (n / 16)

/-- Lowercase hex rendering of a natural number (`format(n, 'x')`). -/
def natToHexDigits (n : Nat) : List Char :=
  if n = 0 then [48].map Char.ofNat else (natToHexRevFuel n n).reverse

/-- Python `format(v, '016x')` / `f"{v:016x}"`: lowercase hex, zero-padded
to (total) width 16, sign first for negative values. -/
def format016x (v : Int) : List Char :=
  if v < 0 then
    Char.ofNat 45 :: (List.replicate (15 - (natToHexDigits v.natAbs).length) (Char.ofNat 48)
      ++ natToHexDigits v.natAbs)
  else
    List.replicate (16 - (natToHexDigits v.toNat).length) (Char.ofNat 48)
      ++ natToHexDigits v.toNat

/-- `bytes.fromhex`: pairs of hex digits, ASCII whitespace allowed between
pairs; `none` when Python raises `ValueError`. -/
def fromhexCore : List Char → Option Bytes
  | [] => some []
  | c :: rest =>
    if isPyWs c then fromhexCore rest
    else
      match rest with
      | d :: rest2 =>
        if isHexDigit c && isHexDigit d then
          (fromhexCore rest2).map (fun bs => (hexVal c * 16 + hexVal d) :: bs)
        else none
      | [] => none

/-- `bytes.fromhex(s)`. -/
def fromhex (cs : List Char) : Option Bytes :=
  fromhexCore cs

/-- `int.from_bytes(bs, 'big')`. -/
def int_from_bytes_be (bs : Bytes) : Nat :=
  bs.foldl (fun acc b => acc * 256 + b) 0

/-- Python `bytearray` slice assignment `l[i:j] = b` for `i ≤ j`: the slice
is replaced by `b`, resizing the buffer when `b` has a different length. -/
def bytearray_setslice (l : Bytes) (i j : Nat) (b : Bytes) : Bytes :=
  l.take i ++ b ++ l.drop j

/-! ## get_next_ryujinx_folder (src lines 8-18) -/

/-- `int(folder, 16)` inside the `max(...)` generator: a `ValueError`
propagates out of `get_next_ryujinx_folder`. -/
def pyIntHexE (s : List Char) : Except Unit Int :=
  match pythonIntHex s with
  | some v => .ok v
  | none => .error ()

/-- Left fold of `max`, the way Python's `max()` walks the generator. -/
def max_int_list : Int → List Int → Int
  | a, [] => a
  | a, x :: r => max_int_list (max a x) r

/-- Values of all remaining folder names, failing on the first invalid one. -/
def get_next_values : List (List Char) → Except Unit (List Int)
  | [] => .ok []
  | f :: r => do
    let v ← pyIntHexE f
    let vr ← get_next_values r
    .ok (v :: vr)

/-- `get_next_ryujinx_folder`: `"0000000000000001"` when no folders exist,
otherwise `format(max(int(folder, 16) ...) + 1, '016x')`; a folder name that
is not a valid base-16 integer makes `int` raise `ValueError`, which is not
caught. -/
def get_next_ryujinx_folder (existing_folders : List (List Char)) : Except Unit (List Char) :=
  match existing_folders with
  | [] => .ok (String.toList "0000000000000001")
  | f :: rest => do
    let v ← pyIntHexE f
    let vr ← get_next_values rest
    .ok (format016x (max_int_list v vr + 1))

/-! ## extract_game_id (src lines 20-29) -/

/-- `extract_game_id`: takes the text before the first space
(`split(' ')[0]`), drops its first two characters (`[2:]`), parses the rest
as base-16 and renders it with `f"{...:016x}"`; any exception yields
`None`. -/
def extract_game_id (checkpoint_folder_name : List Char) : Option (List Char) :=
  match pythonIntHex ((checkpoint_folder_name.takeWhile (fun c => c ≠ ' ')).drop 2) with
  | some v => some (format016x v)
  | none => none

/-! ## create_extradata0_file (src lines 31-48), buffer construction only -/

/-- Default `user_id_hex` argument. -/
def default_user_id_hex : List Char :=
  String.toList "00000000000000010000000000000000"

/-- Default `flags` argument (`b'\x00\x00\x00\x00'`). -/
def default_flags : Bytes := [0, 0, 0, 0]

/-- Default `journal_size` argument (`b'\x10\x00\x00\x00'`, four bytes). -/
def default_journal_size : Bytes := [16, 0, 0, 0]

/-- Default `commit_id` argument (eight zero bytes). -/
def default_commit_id : Bytes := List.replicate 8 0

/-- The 512-byte template built by `create_extradata0_file` before it is
written to `ExtraData0`.  `none` models an uncaught exception
(`bytes.fromhex` failing, or `struct.pack('<Q', _)` on a value outside
64 bits). -/
def create_extradata0_template (game_id_hex user_id_hex : List Char)
    (flags journal_size commit_id : Bytes) : Option Bytes :=
  match fromhex game_id_hex, fromhex user_id_hex with
  | some game_id_bytes, some user_id_bytes =>
    if int_from_bytes_be game_id_bytes < 18446744073709551616 then
      let t0 := List.replicate 512 0
      let gle := pack_u64le (int_from_bytes_be game_id_bytes)
      let t1 := bytearray_setslice t0 0 8 gle
      let t2 := bytearray_setslice t1 8 24 user_id_bytes
      let t3 := bytearray_setslice t2 64 72 gle
      let t4 := bytearray_setslice t3 80 84 flags
      let t5 := bytearray_setslice t4 96 104 journal_size
      let t6 := bytearray_setslice t5 104 112 commit_id
      some t6
    else none
  | _, _ => none

/-! ## read_game_id_from_extradata0 (src lines 66-81), byte-level logic -/

/-- `read_game_id_from_extradata0`: reads the first 8 bytes; an empty read
falls through to `return None`; `struct.unpack('<Q', _)` on 1-7 bytes
raises, which the surrounding `except Exception` turns into `None`;
otherwise the id is returned as `f"{game_id:016x}"`. -/
def read_game_id_from_extradata0 (bs : Bytes) : Option (List Char) :=
  if bs.take 8 = [] then none
  else if (bs.take 8).length = 8 then
    some (format016x (Int.ofNat (unpack_le (bs.take 8))))
  else none

/-! ## imkvdb parsing and writing (src lines 107-115, 133-152, 154-180) -/

/-- Python `entries[key] = value`: replace in place when the key exists,
append otherwise. -/
def dictInsert (entries : List Entry) (k v : Bytes) : List Entry :=
  if entries.any (fun e => e.1 = k) then
    entries.map (fun e => if e.1 = k then (k, v) else e)
  else entries ++ [(k, v)]

/-- The entry loop of `parse_imkvdb` (`for _ in range(num_entries)`), with
the remaining byte stream and the entry dict accumulated so far.  A short
`struct.unpack` read raises (`.error ()`); an entry-magic mismatch breaks
out with the entries collected so far. -/
def parse_entries : Nat → Bytes → List Entry → Except Unit (List Entry)
  | 0, _, acc => .ok acc
  | n + 1, bs, acc =>
    if bs.take 4 = IMEN then
      unpack_u32le ((bs.drop 4).take 4) >>= fun key_size =>
      unpack_u32le ((bs.drop 8).take 4) >>= fun value_size =>
      parse_entries n (bs.drop (12 + key_size + value_size))
        (dictInsert acc ((bs.drop 12).take key_size)
          ((bs.drop (12 + key_size)).take value_size))
    else .ok acc

/-- `parse_imkvdb` on the bytes of an existing file: reads a 12-byte header,
returns an empty dict when the magic does not match, otherwise unpacks the
entry count from `header[8:12]` and runs the entry loop.  (The
`FileNotFoundError` branch is the absent-file case and is not part of the
byte-level function.) -/
def parse_imkvdb (bs : Bytes) : Except Unit (List Entry) :=
  if (bs.take 12).take 4 = IMKV then
    unpack_u32le ((bs.take 12).drop 8) >>= fun num_entries =>
    parse_entries num_entries (bs.drop 12) []
  else .ok []

/-- One serialized entry: `b'IMEN' + pack('<I', len(k)) + pack('<I', len(v))
+ k + v`. -/
def serialize_entry (e : Entry) : Bytes :=
  IMEN ++ pack_u32le e.1.length ++ pack_u32le e.2.length ++ e.1 ++ e.2

/-- Concatenation of all serialized entries. -/
def entries_blob (es : List Entry) : Bytes :=
  (es.map serialize_entry).flatten

/-- The serialization loop shared by `populate_system_folders` and
`update_imkvdb`: header (`b'IMKV'`, four reserved zero bytes, packed entry
count) followed by the entries.  `struct.pack('<I', _)` raises on a count
or length outside 32 bits. -/
def write_imkvdb (es : List Entry) : Except Unit Bytes :=
  if es.length < 4294967296 ∧ ∀ e ∈ es, e.1.length < 4294967296 ∧ e.2.length < 4294967296 then
    .ok (IMKV ++ List.replicate 4 0 ++ pack_u32le es.length ++ entries_blob es)
  else .error ()

/-! ## populate_system_folders (src lines 83-115), entry construction -/

/-- One iteration of the `populate_system_folders` scan: names of length 16
are parsed as hex (a `ValueError` is caught and the folder skipped);
`struct.pack('<Q', folder_id)` raises `struct.error` (uncaught) outside the
unsigned 64-bit range. -/
def populate_step (acc : List Entry) (folder : List Char) : Except Unit (List Entry) :=
  if folder.length = 16 then
    match pythonIntHex folder with
    | none => .ok acc
    | some v =>
      if v < 0 ∨ (18446744073709551616 : Int) ≤ v then .error ()
      else .ok (dictInsert acc
        (List.replicate 24 0 ++ pack_u64le v.toNat ++ List.replicate 32 0)
        (pack_u64le v.toNat ++ List.replicate 56 0))
  else .ok acc

/-- The entry dict built by `populate_system_folders` from the system-save
folder listing. -/
def populate_entries (folders : List (List Char)) : Except Unit (List Entry) :=
  folders.foldlM populate_step []

/-! ## update_imkvdb (src lines 154-180) -/

/-- The key written by `update_imkvdb` (src lines 161-168): system shape for
a zero game id, game-entry shape otherwise. -/
def update_imkvdb_key (game_id folder_id : Nat) : Bytes :=
  if game_id = 0 then
    List.replicate 24 0 ++ pack_u64le folder_id ++ List.replicate 32 0
  else
    pack_u64le game_id ++ [1] ++ List.replicate 23 0 ++ [1] ++ List.replicate 31 0

/-- The value written by `update_imkvdb` (src lines 161-169). -/
def update_imkvdb_value (game_id folder_id : Nat) : Bytes :=
  if game_id = 0 then
    pack_u64le folder_id ++ List.replicate 60 0 ++ [1] ++ List.replicate 3 0
  else
    pack_u64le folder_id ++ List.replicate 16 0 ++ [1] ++ List.replicate 39 0

/-- Lines 171-180 of the source: insert only when the key is absent, and
rewrite the whole file in that case.  The returned flag records whether the
file was rewritten. -/
def upsert_write (entries : List Entry) (key value : Bytes) (fb : Bytes) :
    Except Unit (Bytes × Bool) :=
  if entries.any (fun e => e.1 = key) then .ok (fb, false)
  else write_imkvdb (entries ++ [(key, value)]) >>= fun out => .ok (out, true)

/-- `bytes.fromhex` with its `ValueError` left uncaught. -/
def fromhexE (cs : List Char) : Except Unit Bytes :=
  match fromhex cs with
  | some bs => .ok bs
  | none => .error ()

/-- `update_imkvdb` at the byte level: parse the current file bytes, lower
the game-id string, pack the folder id (raising outside 64 bits), parse the
game id (`int(..., 16)`, raising on invalid hex), build the key/value for
the zero or nonzero branch (the nonzero branch also runs `bytes.fromhex`
and `struct.pack('<Q', game_id)`, both of which can raise), then insert
and rewrite only when the key is new. -/
def update_imkvdb (fb : Bytes) (game_id_hex : List Char) (folder_id : Nat) :
    Except Unit (Bytes × Bool) :=
  parse_imkvdb fb >>= fun entries =>
  if folder_id < 18446744073709551616 then
    pyIntHexE (pyLower game_id_hex) >>= fun v =>
    if v = 0 then
      upsert_write entries (update_imkvdb_key 0 folder_id)
        (update_imkvdb_value 0 folder_id) fb
    else
      fromhexE (pyLower game_id_hex) >>= fun _ =>
      if v < 0 ∨ (18446744073709551616 : Int) ≤ v then .error ()
      else
        upsert_write entries (update_imkvdb_key v.toNat folder_id)
          (update_imkvdb_value v.toNat folder_id) fb
  else .error ()

/-! ## Helper lemmas: hex rendering -/

lemma natToHexRevFuel_length_le (fuel : Nat) :
    ∀ (n k : Nat), n < 16 ^ k → (natToHexRevFuel fuel n).length ≤ k := by
  induction fuel with
  | zero => intro n k _; simp [natToHexRevFuel]
  | succ fuel ih =>
    intro n k hn
    by_cases h0 : n = 0
    · simp [natToHexRevFuel, h0]
    · cases k with
      | zero => simp at hn; omega
      | succ k =>
        have hdiv : n / 16 < 16 ^ k := by
          rw [Nat.div_lt_iff_lt_mul (by norm_num)]
          calc n < 16 ^ (k + 1) := hn
            _ = 16 ^ k * 16 := by rw [Nat.pow_succ]
        simp only [natToHexRevFuel, h0, if_false, List.length_cons]
        exact Nat.succ_le_succ (ih (n / 16) k hdiv)

lemma natToHexRevFuel_mem (fuel : Nat) :
    ∀ (n : Nat) (c : Char), c ∈ natToHexRevFuel fuel n → ∃ d, d < 16 ∧ c = hexDigitChar d := by
  induction fuel with
  | zero => intro n c hc; simp [natToHexRevFuel] at hc
  | succ fuel ih =>
    intro n c hc
    by_cases h0 : n = 0
    · simp [natToHexRevFuel, h0] at hc
    · simp only [natToHexRevFuel, h0, if_false, List.mem_cons] at hc
      rcases hc with hc | hc
      · exact ⟨n % 16, Nat.mod_lt _ (by norm_num), hc⟩
      · exact ih _ _ hc

lemma hexDigitChar_lower : ∀ d < 16, isLowerHexDigit (hexDigitChar d) = true := by decide

lemma natToHexDigits_length_le {n k : Nat} (hn : n < 16 ^ k) (hk : 1 ≤ k) :
    (natToHexDigits n).length ≤ k := by
  unfold natToHexDigits
  split
  · simpa
  · rw [List.length_reverse]
    exact natToHexRevFuel_length_le n n k hn

lemma natToHexDigits_mem {n : Nat} {c : Char} (hc : c ∈ natToHexDigits n) :
    isLowerHexDigit c = true := by
  unfold natToHexDigits at hc
  split at hc
  · simp at hc
    subst hc
    decide
  · rw [List.mem_reverse] at hc
    obtain ⟨d, hd, rfl⟩ := natToHexRevFuel_mem n n c hc
    exact hexDigitChar_lower d hd

lemma format016x_of_u64 {v : Int} (h0 : 0 ≤ v) (h64 : v < 18446744073709551616) :
    (format016x v).length = 16 ∧ ∀ c ∈ format016x v, isLowerHexDigit c = true := by
  have hv : ¬ v < 0 := by omega
  have hn : v.toNat < 16 ^ 16 := by
    have : (16 : Nat) ^ 16 = 18446744073709551616 := by norm_num
    omega
  have hlen : (natToHexDigits v.toNat).length ≤ 16 := natToHexDigits_length_le hn (by norm_num)
  constructor
  · simp only [format016x, hv, if_false, List.length_append, List.length_replicate]
    omega
  · intro c hc
    simp only [format016x, hv, if_false, List.mem_append, List.mem_replicate] at hc
    rcases hc with ⟨-, rfl⟩ | hc
    · decide
    · exact natToHexDigits_mem hc

/-! ## Helper lemmas: populate_system_folders entry shapes -/

lemma dictInsert_mem {acc : List Entry} {k v : Bytes} {e : Entry}
    (he : e ∈ dictInsert acc k v) : e ∈ acc ∨ e = (k, v) := by
  unfold dictInsert at he
  split at he
  · rw [List.mem_map] at he
    obtain ⟨a, ha, hae⟩ := he
    by_cases hk : a.1 = k
    · simp only [hk, if_true] at hae
      exact Or.inr hae.symm
    · simp only [hk, if_false] at hae
      exact Or.inl (hae ▸ ha)
  · rw [List.mem_append] at he
    rcases he with he | he
    · exact Or.inl he
    · simp at he
      exact Or.inr he

lemma except_bind_ok {α β : Type} (a : α) (f : α → Except Unit β) :
    (Except.ok a >>= f) = f a := rfl

lemma except_bind_error {α β : Type} (f : α → Except Unit β) :
    ((Except.error () : Except Unit α) >>= f) = Except.error () := rfl

lemma populate_step_shape {acc acc' : List Entry} {folder : List Char}
    (h : populate_step acc folder = .ok acc')
    (hacc : ∀ e ∈ acc, ∃ f, f < 18446744073709551616 ∧
      e = (List.replicate 24 0 ++ pack_u64le f ++ List.replicate 32 0,
           pack_u64le f ++ List.replicate 56 0)) :
    ∀ e ∈ acc', ∃ f, f < 18446744073709551616 ∧
      e = (List.replicate 24 0 ++ pack_u64le f ++ List.replicate 32 0,
           pack_u64le f ++ List.replicate 56 0) := by
  unfold populate_step at h
  split at h
  · split at h
    · injection h with h2
      exact h2 ▸ hacc
    · rename_i v heq
      split at h
      · injection h
      · injection h with h2
        subst h2
        intro e he
        rcases dictInsert_mem he with he | he
        · exact hacc e he
        · refine ⟨v.toNat, by omega, he⟩
  · injection h with h2
    exact h2 ▸ hacc

lemma populate_fold_shape :
    ∀ (fs : List (List Char)) (acc res : List Entry),
      (∀ e ∈ acc, ∃ f, f < 18446744073709551616 ∧
        e = (List.replicate 24 0 ++ pack_u64le f ++ List.replicate 32 0,
             pack_u64le f ++ List.replicate 56 0)) →
      List.foldlM populate_step acc fs = .ok res →
      ∀ e ∈ res, ∃ f, f < 18446744073709551616 ∧
        e = (List.replicate 24 0 ++ pack_u64le f ++ List.replicate 32 0,
             pack_u64le f ++ List.replicate 56 0) := by
  intro fs
  induction fs with
  | nil =>
    intro acc res hacc hres
    simp only [List.foldlM_nil] at hres
    injection hres with h2
    exact h2 ▸ hacc
  | cons f fs ih =>
    intro acc res hacc hres
    rw [List.foldlM_cons] at hres
    cases hstep : populate_step acc f with
    | error e =>
      cases e
      rw [hstep, except_bind_error] at hres
      injection hres
    | ok acc' =>
      rw [hstep, except_bind_ok] at hres
      exact ih acc' res (populate_step_shape hstep hacc) hres

/-! ## C1 -/

set_option maxRecDepth 100000 in
/-- C1: the metadata-record buffer built by `create_extradata0_file` with
the default flags, journal size and commit id is NOT 512 bytes long: the
4-byte default `journal_size` literal is assigned into the 8-byte slice
`[96:104]`, shrinking the `bytearray` to 508 bytes.  Bytes 64-72 do still
equal bytes 0-8.  (Demonstrated at the spec's own example title id.) -/
theorem create_extradata0_buffer_is_508_bytes :
    (create_extradata0_template (String.toList "0100a2c801c6e000") default_user_id_hex
      default_flags default_journal_size default_commit_id).map List.length = some 508 ∧
    (create_extradata0_template (String.toList "0100a2c801c6e000") default_user_id_hex
      default_flags default_journal_size default_commit_id).map (fun t => t.take 8) =
    (create_extradata0_template (String.toList "0100a2c801c6e000") default_user_id_hex
      default_flags default_journal_size default_commit_id).map (fun t => (t.drop 64).take 8) :=
  ⟨by decide, by decide⟩

/-! ## C4 -/

/-- C4 counterexample: a malformed archive in one of the claim's own
categories — the header declares one entry but the bytes end right after
the entry magic — makes `parse_imkvdb` raise an uncaught `struct.error`
(`.error ()`), instead of yielding a mapping. -/
theorem parse_imkvdb_truncated_raises :
    parse_imkvdb [73, 77, 75, 86, 0, 0, 0, 0, 1, 0, 0, 0, 73, 77, 69, 78] = .error () := by
  decide

/-- C4 amended, first part (helper for the claim theorem below): the
declaration site of the two recovery behaviours `parse_imkvdb` does have.
See `parse_imkvdb_malformed_recovery`. -/
lemma parse_imkvdb_of_bad_magic {bs : Bytes} (h : bs.take 4 ≠ IMKV) :
    parse_imkvdb bs = .ok [] := by
  have h4 : (bs.take 12).take 4 = bs.take 4 := by
    rw [List.take_take]
    norm_num
  unfold parse_imkvdb
  rw [h4, if_neg h]

/-! ## C6 -/

/-- C6 counterexample: the folder name `"zz10 A"` does not have the form
`0x<hex> <name>` (the text before the first space does not start with
`0x`), yet `extract_game_id` still yields an identifier, because the code
blindly strips the first two characters instead of checking them. -/
theorem extract_game_id_no_0x_check :
    extract_game_id (String.toList "zz10 A") = some (String.toList "0000000000000010") ∧
    ((String.toList "zz10 A").takeWhile (fun c => c ≠ ' ')).take 2 ≠ String.toList "0x" :=
  ⟨by decide, by decide⟩

/-- C6 amended: `extract_game_id` yields an identifier exactly when the
text before the first space, with its first two characters removed (they
are assumed to be `0x` but never checked), parses as a base-16 integer;
the identifier is then the `016x` rendering of that integer. -/
theorem extract_game_id_success_iff (name : List Char) :
    (extract_game_id name).isSome =
      (pythonIntHex ((name.takeWhile (fun c => c ≠ ' ')).drop 2)).isSome ∧
    ∀ v, pythonIntHex ((name.takeWhile (fun c => c ≠ ' ')).drop 2) = some v →
      extract_game_id name = some (format016x v) := by
  constructor
  · unfold extract_game_id
    cases h : pythonIntHex ((name.takeWhile (fun c => c ≠ ' ')).drop 2) <;> simp
  · intro v hv
    unfold extract_game_id
    rw [hv]

/-- Witness for `extract_game_id_success_iff` on a concrete name. -/
theorem extract_game_id_success_iff_witness :
    extract_game_id (String.toList "0xABC Game") = some (format016x 2748) :=
  (extract_game_id_success_iff (String.toList "0xABC Game")).2 2748 (by decide)

/-! ## C7 -/

/-- C7 counterexample: the zero-title branch of `update_imkvdb` (title id
`"0000000000000000"`, slot 1, empty archive) writes an entry whose value is
the 72-byte `slot ‖ 60 zeros ‖ 0x01 ‖ 3 zeros`, not the claimed
`slot ‖ 56 zeros`. -/
theorem system_value_mismatch_in_update :
    update_imkvdb [] (String.toList "0000000000000000") 1 =
      .ok (IMKV ++ List.replicate 4 0 ++ pack_u32le 1 ++
        (IMEN ++ pack_u32le 64 ++ pack_u32le 72 ++
          (List.replicate 24 0 ++ pack_u64le 1 ++ List.replicate 32 0) ++
          (pack_u64le 1 ++ List.replicate 60 0 ++ [1] ++ List.replicate 3 0)), true) ∧
    pack_u64le 1 ++ List.replicate 60 0 ++ [1] ++ List.replicate 3 0 ≠
      pack_u64le 1 ++ List.replicate 56 0 :=
  ⟨by decide, by decide⟩

/-- C7 amended: every entry produced by `populate_system_folders` has the
claimed system shape (key `24 zeros ‖ slot ‖ 32 zeros`, value
`slot ‖ 56 zeros`); the zero-title branch of `update_imkvdb` uses the same
key shape but a 72-byte value `slot ‖ 60 zeros ‖ 0x01 ‖ 3 zeros`. -/
theorem system_entry_shapes :
    (∀ fs res, populate_entries fs = .ok res →
      ∀ e ∈ res, ∃ f, f < 18446744073709551616 ∧
        e = (List.replicate 24 0 ++ pack_u64le f ++ List.replicate 32 0,
             pack_u64le f ++ List.replicate 56 0)) ∧
    (∀ f, f < 18446744073709551616 →
      update_imkvdb_key 0 f = List.replicate 24 0 ++ pack_u64le f ++ List.replicate 32 0 ∧
      update_imkvdb_value 0 f =
        pack_u64le f ++ List.replicate 60 0 ++ [1] ++ List.replicate 3 0) := by
  constructor
  · intro fs res hres
    exact populate_fold_shape fs [] res (by simp) hres
  · intro f _
    exact ⟨by simp [update_imkvdb_key], by simp [update_imkvdb_value]⟩

/-- Witness for `system_entry_shapes` at slot id 5. -/
theorem system_entry_shapes_witness :
    update_imkvdb_key 0 5 = List.replicate 24 0 ++ pack_u64le 5 ++ List.replicate 32 0 :=
  (system_entry_shapes.2 5 (by decide)).1

/-! ## C9 -/

/-- C9: with a zero title identifier, `update_imkvdb` builds the
system-shaped key (24 zeros, 8-byte little-endian slot id, 32 zeros) and a
72-byte value (slot id, 60 zeros, `0x01`, 3 zeros), whereas every nonzero
title identifier gets the title-entry key/value shape. -/
theorem update_imkvdb_zero_title_shape (folder_id : Nat)
    (_hf : folder_id < 18446744073709551616) :
    update_imkvdb_key 0 folder_id =
      List.replicate 24 0 ++ pack_u64le folder_id ++ List.replicate 32 0 ∧
    update_imkvdb_value 0 folder_id =
      pack_u64le folder_id ++ List.replicate 60 0 ++ [1] ++ List.replicate 3 0 ∧
    (update_imkvdb_value 0 folder_id).length = 72 ∧
    ∀ game_id, game_id ≠ 0 →
      update_imkvdb_key game_id folder_id =
        pack_u64le game_id ++ [1] ++ List.replicate 23 0 ++ [1] ++ List.replicate 31 0 ∧
      update_imkvdb_value game_id folder_id =
        pack_u64le folder_id ++ List.replicate 16 0 ++ [1] ++ List.replicate 39 0 := by
  refine ⟨by simp [update_imkvdb_key], by simp [update_imkvdb_value], ?_, ?_⟩
  · simp [update_imkvdb_value, pack_u64le]
  · intro g hg
    exact ⟨by simp [update_imkvdb_key, hg], by simp [update_imkvdb_value, hg]⟩

/-- Witness for `update_imkvdb_zero_title_shape` at slot id 1. -/
theorem update_imkvdb_zero_title_shape_witness :
    (update_imkvdb_value 0 1).length = 72 :=
  (update_imkvdb_zero_title_shape 1 (by decide)).2.2.1

/-! ## C10 -/

/-- C10 counterexample: a source folder name whose hex text has 17 digits
(value `2^64`) still extracts successfully, but the returned identifier has
17 characters, not 16. -/
theorem extract_game_id_long_hex :
    extract_game_id (String.toList "0x10000000000000000 A") =
      some (String.toList "10000000000000000") ∧
    (String.toList "10000000000000000").length ≠ 16 :=
  ⟨by decide, by decide⟩

/-- C10 amended: whenever `extract_game_id` succeeds and the parsed value
lies in `[0, 2^64)`, the identifier is exactly 16 characters of lowercase
zero-padded hexadecimal; values outside that range produce longer or
sign-bearing strings (see the counterexample). -/
theorem extract_game_id_canonical_form (name : List Char) (v : Int)
    (hv : pythonIntHex ((name.takeWhile (fun c => c ≠ ' ')).drop 2) = some v)
    (h0 : 0 ≤ v) (h64 : v < 18446744073709551616) :
    extract_game_id name = some (format016x v) ∧
    (format016x v).length = 16 ∧
    ∀ c ∈ format016x v, isLowerHexDigit c = true := by
  obtain ⟨hlen, hmem⟩ := format016x_of_u64 h0 h64
  refine ⟨?_, hlen, hmem⟩
  unfold extract_game_id
  rw [hv]

/-- Witness for `extract_game_id_canonical_form` at the spec's example. -/
theorem extract_game_id_canonical_form_witness :
    extract_game_id (String.toList "0x0100a2c801c6e000 Game") =
      some (format016x (0x0100a2c801c6e000 : Int)) ∧
    (format016x (0x0100a2c801c6e000 : Int)).length = 16 :=
  have h := extract_game_id_canonical_form (String.toList "0x0100a2c801c6e000 Game")
    (0x0100a2c801c6e000 : Int) (by decide) (by decide) (by decide)
  ⟨h.1, h.2.1⟩

/-! ## Helper lemmas: slot allocation -/

lemma max_int_list_spec :
    ∀ (l : List Int) (a : Int),
      (max_int_list a l = a ∨ max_int_list a l ∈ l) ∧
      a ≤ max_int_list a l ∧ ∀ x ∈ l, x ≤ max_int_list a l := by
  intro l
  induction l with
  | nil => exact fun a => ⟨Or.inl rfl, le_refl a, by simp⟩
  | cons x r ih =>
    intro a
    obtain ⟨hmem, hle, hub⟩ := ih (max a x)
    simp only [max_int_list]
    refine ⟨?_, le_trans (le_max_left a x) hle, ?_⟩
    · rcases hmem with hmem | hmem
      · rcases max_choice a x with hc | hc
        · exact Or.inl (hmem.trans hc)
        · exact Or.inr (by rw [hmem, hc]; exact List.mem_cons_self x r)
      · exact Or.inr (List.mem_cons_of_mem x hmem)
    · intro y hy
      rcases List.mem_cons.mp hy with rfl | hy
      · exact le_trans (le_max_right a y) hle
      · exact hub y hy

lemma pyIntHexE_ok {s : List Char} {v : Int} (h : pythonIntHex s = some v) :
    pyIntHexE s = .ok v := by
  unfold pyIntHexE
  rw [h]

lemma pyIntHexE_error {s : List Char} (h : pythonIntHex s = none) :
    pyIntHexE s = .error () := by
  unfold pyIntHexE
  rw [h]

lemma get_next_values_of_map :
    ∀ (fs : List (List Char)) (vs : List Int),
      fs.map pythonIntHex = vs.map some → get_next_values fs = .ok vs := by
  intro fs
  induction fs with
  | nil =>
    intro vs h
    simp only [List.map_nil] at h
    have : vs = [] := by
      cases vs with
      | nil => rfl
      | cons v vr => simp at h
    rw [this]
    rfl
  | cons f fs ih =>
    intro vs h
    cases vs with
    | nil => simp at h
    | cons v vr =>
      simp only [List.map_cons, List.cons.injEq] at h
      show (pyIntHexE f >>= fun v => get_next_values fs >>= fun vr => .ok (v :: vr)) = _
      rw [pyIntHexE_ok h.1, except_bind_ok, ih vr h.2, except_bind_ok]

lemma get_next_values_error :
    ∀ (fs : List (List Char)) (f : List Char), f ∈ fs → pythonIntHex f = none →
      get_next_values fs = .error () := by
  intro fs
  induction fs with
  | nil => intro f hf; simp at hf
  | cons g fs ih =>
    intro f hf hnone
    show (pyIntHexE g >>= fun v => get_next_values fs >>= fun vr => .ok (v :: vr)) = _
    rcases List.mem_cons.mp hf with rfl | hf
    · rw [pyIntHexE_error hnone, except_bind_error]
    · cases hg : pythonIntHex g with
      | none => rw [pyIntHexE_error hg, except_bind_error]
      | some w =>
        rw [pyIntHexE_ok hg, except_bind_ok, ih f hf hnone, except_bind_error]

/-! ## C5 -/

/-- C5 counterexample: a listing consisting of one non-hexadecimal folder
name makes `get_next_ryujinx_folder` raise `ValueError` (the claim says the
name is excluded from the candidate set, which would leave it empty and
give slot 1). -/
theorem get_next_ryujinx_folder_nonhex_raises :
    get_next_ryujinx_folder [String.toList "zz"] = .error () := by
  decide

/-- C5 amended: with no existing folders the allocator returns
`"0000000000000001"`; when every name is a valid base-16 integer it returns
`format(max + 1, '016x')`; but a name that is not a valid base-16 integer
raises `ValueError` out of the function instead of being excluded from the
candidate set (it is not treated as 0 either). -/
theorem get_next_ryujinx_folder_spec :
    (get_next_ryujinx_folder [] = .ok (String.toList "0000000000000001")) ∧
    (∀ (fs : List (List Char)) (vs : List Int),
      fs.map pythonIntHex = vs.map some → fs ≠ [] →
      ∃ m, m ∈ vs ∧ (∀ x ∈ vs, x ≤ m) ∧
        get_next_ryujinx_folder fs = .ok (format016x (m + 1))) ∧
    (∀ (fs : List (List Char)) (f : List Char), f ∈ fs → pythonIntHex f = none →
      get_next_ryujinx_folder fs = .error ()) := by
  refine ⟨rfl, ?_, ?_⟩
  · intro fs vs hmap hne
    cases fs with
    | nil => exact absurd rfl hne
    | cons f rest =>
      cases vs with
      | nil => simp at hmap
      | cons v vr =>
        simp only [List.map_cons, List.cons.injEq] at hmap
        obtain ⟨hmem, hle, hub⟩ := max_int_list_spec vr v
        refine ⟨max_int_list v vr, ?_, ?_, ?_⟩
        · rcases hmem with hmem | hmem
          · rw [hmem]
            exact List.mem_cons_self v vr
          · exact List.mem_cons_of_mem v hmem
        · intro x hx
          rcases List.mem_cons.mp hx with rfl | hx
          · exact hle
          · exact hub x hx
        · show (pyIntHexE f >>= fun v => get_next_values rest >>=
              fun vr => .ok (format016x (max_int_list v vr + 1))) = _
          rw [pyIntHexE_ok hmap.1, except_bind_ok,
            get_next_values_of_map rest vr hmap.2, except_bind_ok]
  · intro fs f hf hnone
    cases fs with
    | nil => simp at hf
    | cons g rest =>
      show (pyIntHexE g >>= fun v => get_next_values rest >>=
          fun vr => .ok (format016x (max_int_list v vr + 1))) = _
      rcases List.mem_cons.mp hf with rfl | hf
      · rw [pyIntHexE_error hnone, except_bind_error]
      · cases hg : pythonIntHex g with
        | none => rw [pyIntHexE_error hg, except_bind_error]
        | some w =>
          rw [pyIntHexE_ok hg, except_bind_ok,
            get_next_values_error rest f hf hnone, except_bind_error]

/-- Witness for `get_next_ryujinx_folder_spec`: the spec's own example,
`nextSlot({0000000000000001, 0000000000000003}) = 0000000000000004`. -/
theorem get_next_ryujinx_folder_spec_witness :
    get_next_ryujinx_folder
        [String.toList "0000000000000001", String.toList "0000000000000003"] =
      .ok (String.toList "0000000000000004") := by
  obtain ⟨m, hm, hub, hres⟩ := get_next_ryujinx_folder_spec.2.1
    [String.toList "0000000000000001", String.toList "0000000000000003"]
    [1, 3] (by decide) (by decide)
  have h3 : m = 3 := by
    have hle := hub 3 (by decide)
    have : m = 1 ∨ m = 3 := by simpa using hm
    omega
  rw [h3] at hres
  exact hres.trans (by decide)

/-! ## Helper lemmas: archive round-trip -/

lemma take4_of_cons (a b c d : Nat) (X : Bytes) : (a :: b :: c :: d :: X).take 4 = [a, b, c, d] :=
  rfl

lemma drop4_of_cons (a b c d : Nat) (X : Bytes) : (a :: b :: c :: d :: X).drop 4 = X :=
  rfl

lemma drop8_of_cons (a b c d e f g h : Nat) (X : Bytes) :
    (a :: b :: c :: d :: e :: f :: g :: h :: X).drop 8 = X :=
  rfl

lemma drop12_of_cons (a b c d e f g h i j k l : Nat) (X : Bytes) :
    (a :: b :: c :: d :: e :: f :: g :: h :: i :: j :: k :: l :: X).drop 12 = X :=
  rfl

lemma drop_add12_of_cons (a b c d e f g h i j k l : Nat) (X : Bytes) (m : Nat) :
    (a :: b :: c :: d :: e :: f :: g :: h :: i :: j :: k :: l :: X).drop (m + 12) = X.drop m :=
  rfl

lemma unpack_pack_u32 {n : Nat} (h : n < 4294967296) :
    unpack_u32le (pack_u32le n) = .ok n := by
  simp only [pack_u32le, unpack_u32le]
  congr 1
  omega

lemma parse_entries_step_cons (n kl vl : Nat) (hkl : kl < 4294967296) (hvl : vl < 4294967296)
    (k v blob : Bytes) (hk : k.length = kl) (hv : v.length = vl) (acc : List Entry) :
    parse_entries (n + 1)
      (73 :: 77 :: 69 :: 78 :: (kl % 256) :: (kl / 256 % 256) :: (kl / 65536 % 256)
        :: (kl / 16777216 % 256) :: (vl % 256) :: (vl / 256 % 256) :: (vl / 65536 % 256)
        :: (vl / 16777216 % 256) :: (k ++ (v ++ blob))) acc =
    parse_entries n blob (dictInsert acc k v) := by
  simp only [parse_entries]
  rw [if_pos (show ((73 :: 77 :: 69 :: 78 :: (kl % 256) :: (kl / 256 % 256) :: (kl / 65536 % 256)
        :: (kl / 16777216 % 256) :: (vl % 256) :: (vl / 256 % 256) :: (vl / 65536 % 256)
        :: (vl / 16777216 % 256) :: (k ++ (v ++ blob))).take 4 = IMEN) from rfl)]
  rw [drop4_of_cons, take4_of_cons]
  rw [show ([kl % 256, kl / 256 % 256, kl / 65536 % 256, kl / 16777216 % 256] : Bytes) =
    pack_u32le kl from rfl]
  rw [unpack_pack_u32 hkl, except_bind_ok]
  rw [drop8_of_cons, take4_of_cons]
  rw [show ([vl % 256, vl / 256 % 256, vl / 65536 % 256, vl / 16777216 % 256] : Bytes) =
    pack_u32le vl from rfl]
  rw [unpack_pack_u32 hvl, except_bind_ok]
  rw [drop12_of_cons, ← hk, List.take_left]
  rw [show 12 + k.length = k.length + 12 from by omega, drop_add12_of_cons, List.drop_left]
  rw [← hv, List.take_left]
  rw [show k.length + 12 + v.length = (k.length + v.length) + 12 from by omega, drop_add12_of_cons]
  rw [List.drop_append, List.drop_left]

lemma parse_entries_step (n : Nat) (k v blob : Bytes) (acc : List Entry)
    (hkl : k.length < 4294967296) (hvl : v.length < 4294967296) :
    parse_entries (n + 1) (serialize_entry (k, v) ++ blob) acc =
    parse_entries n blob (dictInsert acc k v) := by
  have hchain : serialize_entry (k, v) ++ blob =
      73 :: 77 :: 69 :: 78 :: (k.length % 256) :: (k.length / 256 % 256)
        :: (k.length / 65536 % 256) :: (k.length / 16777216 % 256)
        :: (v.length % 256) :: (v.length / 256 % 256) :: (v.length / 65536 % 256)
        :: (v.length / 16777216 % 256) :: (k ++ (v ++ blob)) := by
    simp [serialize_entry, IMEN, pack_u32le]
  rw [hchain]
  exact parse_entries_step_cons n k.length v.length hkl hvl k v blob rfl rfl acc

lemma entries_blob_cons (e : Entry) (es : List Entry) :
    entries_blob (e :: es) = serialize_entry e ++ entries_blob es := by
  simp [entries_blob]

lemma not_any_of_not_mem {acc : List Entry} {k : Bytes} (h : k ∉ acc.map Prod.fst) :
    (acc.any fun e => e.1 = k) = false := by
  rw [List.any_eq_false]
  intro e he
  simp only [decide_eq_true_eq]
  intro hk
  exact h (List.mem_map.mpr ⟨e, he, hk⟩)

lemma mem_of_any_key {acc : List Entry} {k : Bytes}
    (h : (acc.any fun e => e.1 = k) = true) : k ∈ acc.map Prod.fst := by
  rw [List.any_eq_true] at h
  obtain ⟨e, he, hk⟩ := h
  simp only [decide_eq_true_eq] at hk
  exact List.mem_map.mpr ⟨e, he, hk⟩

lemma any_key_append_self (E : List Entry) (K V : Bytes) :
    ((E ++ [(K, V)]).any fun e => e.1 = K) = true := by
  simp

lemma dictInsert_of_fresh {acc : List Entry} {k v : Bytes} (h : k ∉ acc.map Prod.fst) :
    dictInsert acc k v = acc ++ [(k, v)] := by
  unfold dictInsert
  rw [not_any_of_not_mem h]
  simp

lemma dictInsert_keys_nodup {acc : List Entry} {k v : Bytes} (h : (acc.map Prod.fst).Nodup) :
    ((dictInsert acc k v).map Prod.fst).Nodup := by
  unfold dictInsert
  split
  · have hkeys : (acc.map (fun e => if e.1 = k then (k, v) else e)).map Prod.fst =
        acc.map Prod.fst := by
      rw [List.map_map]
      apply List.map_congr_left
      intro e _
      by_cases hk : e.1 = k
      · simp [hk]
      · simp [hk]
    rw [hkeys]
    exact h
  · rename_i hany
    rw [List.map_append]
    rw [List.nodup_append]
    refine ⟨h, by simp, ?_⟩
    intro a ha hb
    simp only [List.map_cons, List.map_nil, List.mem_singleton] at hb
    subst hb
    exact hany (by rw [List.any_eq_true]; exact (by
      obtain ⟨e, he, hk⟩ := List.mem_map.mp ha
      exact ⟨e, he, by simp [hk]⟩))

lemma parse_entries_blob :
    ∀ (es acc : List Entry),
      (∀ e ∈ es, e.1.length < 4294967296 ∧ e.2.length < 4294967296) →
      (es.map Prod.fst).Nodup →
      (∀ e ∈ es, e.1 ∉ acc.map Prod.fst) →
      parse_entries es.length (entries_blob es) acc = .ok (acc ++ es) := by
  intro es
  induction es with
  | nil =>
    intro acc _ _ _
    simp [parse_entries]
  | cons e es ih =>
    intro acc hsz hnd hacc
    obtain ⟨k, v⟩ := e
    simp only [List.length_cons]
    rw [entries_blob_cons]
    rw [parse_entries_step es.length k v (entries_blob es) acc
      (hsz (k, v) (List.mem_cons_self _ _)).1 (hsz (k, v) (List.mem_cons_self _ _)).2]
    rw [dictInsert_of_fresh (hacc (k, v) (List.mem_cons_self _ _))]
    simp only [List.map_cons, List.nodup_cons] at hnd
    rw [ih (acc ++ [(k, v)]) (fun e he => hsz e (List.mem_cons_of_mem _ he)) hnd.2 ?side]
    · simp
    case side =>
      intro e he
      rw [List.map_append]
      rw [List.mem_append]
      intro hcase
      rcases hcase with hcase | hcase
      · exact hacc e (List.mem_cons_of_mem _ he) hcase
      · simp only [List.map_cons, List.map_nil, List.mem_singleton] at hcase
        exact hnd.1 (hcase ▸ List.mem_map.mpr ⟨e, he, rfl⟩)

lemma parse_write_imkvdb {es : List Entry} {bs : Bytes}
    (hnd : (es.map Prod.fst).Nodup) (h : write_imkvdb es = .ok bs) :
    parse_imkvdb bs = .ok es := by
  unfold write_imkvdb at h
  split at h
  · rename_i hguard
    injection h with h2
    subst h2
    have hchain : IMKV ++ List.replicate 4 0 ++ pack_u32le es.length ++ entries_blob es =
        73 :: 77 :: 75 :: 86 :: 0 :: 0 :: 0 :: 0 :: (es.length % 256) :: (es.length / 256 % 256)
          :: (es.length / 65536 % 256) :: (es.length / 16777216 % 256) :: entries_blob es := by
      simp [IMKV, pack_u32le]
    rw [hchain]
    unfold parse_imkvdb
    rw [if_pos (show (((73 : Nat) :: 77 :: 75 :: 86 :: 0 :: 0 :: 0 :: 0 :: (es.length % 256)
      :: (es.length / 256 % 256) :: (es.length / 65536 % 256) :: (es.length / 16777216 % 256)
      :: entries_blob es).take 12).take 4 = IMKV from rfl)]
    rw [show (((73 : Nat) :: 77 :: 75 :: 86 :: 0 :: 0 :: 0 :: 0 :: (es.length % 256)
      :: (es.length / 256 % 256) :: (es.length / 65536 % 256) :: (es.length / 16777216 % 256)
      :: entries_blob es).take 12).drop 8 = pack_u32le es.length from rfl]
    rw [unpack_pack_u32 hguard.1, except_bind_ok, drop12_of_cons]
    rw [parse_entries_blob es [] hguard.2 hnd (by simp)]
    simp
  · injection h

/-- The entry loop on a well-formed entry blob followed by trailing bytes
that do not start with the `IMEN` magic: with enough declared entries, the
loop consumes the blob and then breaks on the magic mismatch (or on the
bytes simply ending), returning the entries collected so far. -/
lemma parse_entries_blob_trailing :
    ∀ (es acc : List Entry) (g : Bytes) (fuel : Nat),
      (∀ e ∈ es, e.1.length < 4294967296 ∧ e.2.length < 4294967296) →
      (es.map Prod.fst).Nodup →
      (∀ e ∈ es, e.1 ∉ acc.map Prod.fst) →
      es.length ≤ fuel → g.take 4 ≠ IMEN →
      parse_entries fuel (entries_blob es ++ g) acc = .ok (acc ++ es) := by
  intro es
  induction es with
  | nil =>
    intro acc g fuel _ _ _ _ hg
    rw [show entries_blob [] ++ g = g from by simp [entries_blob]]
    cases fuel with
    | zero => simp [parse_entries]
    | succ m =>
      simp only [parse_entries]
      rw [if_neg hg]
      simp
  | cons e es ih =>
    intro acc g fuel hsz hnd hacc hlen hg
    obtain ⟨k, v⟩ := e
    cases fuel with
    | zero =>
      simp only [List.length_cons] at hlen
      omega
    | succ m =>
      rw [entries_blob_cons, List.append_assoc]
      rw [parse_entries_step m k v (entries_blob es ++ g) acc
        (hsz (k, v) (List.mem_cons_self _ _)).1 (hsz (k, v) (List.mem_cons_self _ _)).2]
      rw [dictInsert_of_fresh (hacc (k, v) (List.mem_cons_self _ _))]
      simp only [List.map_cons, List.nodup_cons] at hnd
      rw [ih (acc ++ [(k, v)]) g m (fun e he => hsz e (List.mem_cons_of_mem _ he)) hnd.2 ?side
        (by simp only [List.length_cons] at hlen; omega) hg]
      · simp
      case side =>
        intro e he
        rw [List.map_append]
        rw [List.mem_append]
        intro hcase
        rcases hcase with hcase | hcase
        · exact hacc e (List.mem_cons_of_mem _ he) hcase
        · simp only [List.map_cons, List.map_nil, List.mem_singleton] at hcase
          exact hnd.1 (hcase ▸ List.mem_map.mpr ⟨e, he, rfl⟩)

/-- C4 amended: a byte string whose first four bytes are not the `IMKV`
magic loads as an empty mapping, and an archive whose declared entry count
exceeds the entries actually present recovers the entries collected up to
the point where the entry magic fails to match (including the bytes simply
ending at an entry boundary); but an input with the correct magic that is
truncated inside the header or inside an entry's size fields raises an
uncaught `struct.error` (see the counterexample). -/
theorem parse_imkvdb_malformed_recovery :
    (∀ bs : Bytes, bs.take 4 ≠ IMKV → parse_imkvdb bs = .ok []) ∧
    (∀ (es : List Entry) (g : Bytes) (n : Nat),
      (∀ e ∈ es, e.1.length < 4294967296 ∧ e.2.length < 4294967296) →
      (es.map Prod.fst).Nodup →
      es.length ≤ n → n < 4294967296 → g.take 4 ≠ IMEN →
      parse_imkvdb (IMKV ++ List.replicate 4 0 ++ pack_u32le n ++ (entries_blob es ++ g)) =
        .ok es) := by
  refine ⟨fun bs h => parse_imkvdb_of_bad_magic h, ?_⟩
  intro es g n hsz hnd hlen hn hg
  have hchain : IMKV ++ List.replicate 4 0 ++ pack_u32le n ++ (entries_blob es ++ g) =
      73 :: 77 :: 75 :: 86 :: 0 :: 0 :: 0 :: 0 :: (n % 256) :: (n / 256 % 256)
        :: (n / 65536 % 256) :: (n / 16777216 % 256) :: (entries_blob es ++ g) := by
    simp [IMKV, pack_u32le]
  rw [hchain]
  unfold parse_imkvdb
  rw [if_pos (show (((73 : Nat) :: 77 :: 75 :: 86 :: 0 :: 0 :: 0 :: 0 :: (n % 256)
    :: (n / 256 % 256) :: (n / 65536 % 256) :: (n / 16777216 % 256)
    :: (entries_blob es ++ g)).take 12).take 4 = IMKV from rfl)]
  rw [show (((73 : Nat) :: 77 :: 75 :: 86 :: 0 :: 0 :: 0 :: 0 :: (n % 256)
    :: (n / 256 % 256) :: (n / 65536 % 256) :: (n / 16777216 % 256)
    :: (entries_blob es ++ g)).take 12).drop 8 = pack_u32le n from rfl]
  rw [unpack_pack_u32 hn, except_bind_ok, drop12_of_cons]
  rw [parse_entries_blob_trailing es [] g n hsz hnd (by simp) hlen hg]
  simp

/-- Witness for `parse_imkvdb_malformed_recovery`: a wrong-magic input
loads as empty, and an archive declaring two entries but holding only one
(followed by non-`IMEN` garbage) loads as that one entry. -/
theorem parse_imkvdb_malformed_recovery_witness :
    parse_imkvdb [0, 1, 2, 3] = .ok [] ∧
    parse_imkvdb (IMKV ++ List.replicate 4 0 ++ pack_u32le 2 ++
      (entries_blob [([1], [2])] ++ [9, 9, 9, 9])) = .ok [([1], [2])] :=
  ⟨parse_imkvdb_malformed_recovery.1 [0, 1, 2, 3] (by decide),
   parse_imkvdb_malformed_recovery.2 [([1], [2])] [9, 9, 9, 9] 2
     (by decide) (by decide) (by decide) (by decide) (by decide)⟩

/-! ## C2 -/

/-- C2: decoding the archive bytes produced by the encoder (the `IMKV`
header plus `IMEN` entries, exactly as `update_imkvdb` writes them) with
`parse_imkvdb` recovers the ordered mapping exactly — same keys, values
and entry order — for mappings of distinct, non-empty keys/values shorter
than 2^32 bytes. -/
theorem imkvdb_encode_decode_roundtrip (m : List Entry)
    (_hne : ∀ e ∈ m, e.1 ≠ [] ∧ e.2 ≠ [])
    (_hsz : ∀ e ∈ m, e.1.length < 4294967296 ∧ e.2.length < 4294967296)
    (hnd : (m.map Prod.fst).Nodup) (bs : Bytes)
    (henc : write_imkvdb m = .ok bs) :
    parse_imkvdb bs = .ok m :=
  parse_write_imkvdb hnd henc

/-- Witness for `imkvdb_encode_decode_roundtrip` on a two-entry mapping. -/
theorem imkvdb_encode_decode_roundtrip_witness :
    parse_imkvdb [73, 77, 75, 86, 0, 0, 0, 0, 2, 0, 0, 0,
      73, 77, 69, 78, 1, 0, 0, 0, 1, 0, 0, 0, 1, 2,
      73, 77, 69, 78, 2, 0, 0, 0, 1, 0, 0, 0, 3, 4, 5] =
      .ok [([1], [2]), ([3, 4], [5])] :=
  imkvdb_encode_decode_roundtrip [([1], [2]), ([3, 4], [5])]
    (by decide) (by decide) (by decide) _ (by decide)

/-! ## C3 -/

lemma parse_entries_nodup :
    ∀ (n : Nat) (bs : Bytes) (acc res : List Entry),
      parse_entries n bs acc = .ok res → (acc.map Prod.fst).Nodup →
      (res.map Prod.fst).Nodup := by
  intro n
  induction n with
  | zero =>
    intro bs acc res h hacc
    injection h with h2
    exact h2 ▸ hacc
  | succ n ih =>
    intro bs acc res h hacc
    simp only [parse_entries] at h
    split at h
    · cases hu1 : unpack_u32le ((bs.drop 4).take 4) with
      | error e =>
        cases e
        rw [hu1, except_bind_error] at h
        injection h
      | ok ks =>
        rw [hu1, except_bind_ok] at h
        cases hu2 : unpack_u32le ((bs.drop 8).take 4) with
        | error e =>
          cases e
          rw [hu2, except_bind_error] at h
          injection h
        | ok vs =>
          rw [hu2, except_bind_ok] at h
          exact ih _ _ res h (dictInsert_keys_nodup hacc)
    · injection h with h2
      exact h2 ▸ hacc

lemma parse_imkvdb_nodup {bs : Bytes} {E : List Entry} (h : parse_imkvdb bs = .ok E) :
    (E.map Prod.fst).Nodup := by
  unfold parse_imkvdb at h
  split at h
  · cases hu : unpack_u32le ((bs.take 12).drop 8) with
    | error e =>
      cases e
      rw [hu, except_bind_error] at h
      injection h
    | ok n =>
      rw [hu, except_bind_ok] at h
      exact parse_entries_nodup n _ [] E h (by simp)
  · injection h with h2
    rw [← h2]
    simp

lemma upsert_write_next {E : List Entry} {K V fb fb1 : Bytes} {c1 : Bool}
    (hE : (E.map Prod.fst).Nodup)
    (hparse : parse_imkvdb fb = .ok E)
    (h : upsert_write E K V fb = .ok (fb1, c1)) :
    ∃ E1, parse_imkvdb fb1 = .ok E1 ∧ upsert_write E1 K V fb1 = .ok (fb1, false) := by
  unfold upsert_write at h
  by_cases hmem : (E.any fun e => e.1 = K) = true
  · rw [if_pos hmem] at h
    injection h with h2
    rw [Prod.mk.injEq] at h2
    obtain ⟨h3, -⟩ := h2
    subst h3
    refine ⟨E, hparse, ?_⟩
    unfold upsert_write
    rw [if_pos hmem]
  · rw [if_neg hmem] at h
    cases hw : write_imkvdb (E ++ [(K, V)]) with
    | error e =>
      cases e
      rw [hw, except_bind_error] at h
      injection h
    | ok out =>
      rw [hw, except_bind_ok] at h
      injection h with h2
      rw [Prod.mk.injEq] at h2
      obtain ⟨h3, -⟩ := h2
      subst h3
      have hfresh : K ∉ E.map Prod.fst := fun hK => hmem (by
        rw [List.any_eq_true]
        obtain ⟨e, he, hk⟩ := List.mem_map.mp hK
        exact ⟨e, he, by simp [hk]⟩)
      have hnd1 : ((E ++ [(K, V)]).map Prod.fst).Nodup := by
        rw [List.map_append, List.nodup_append]
        refine ⟨hE, by simp, ?_⟩
        intro a ha hb
        simp only [List.map_cons, List.map_nil, List.mem_singleton] at hb
        exact hfresh (hb ▸ ha)
      refine ⟨E ++ [(K, V)], parse_write_imkvdb hnd1 hw, ?_⟩
      unfold upsert_write
      rw [if_pos (any_key_append_self E K V)]

/-- C3: applying `update_imkvdb` a second time with the same title id and
slot id leaves the archive bytes (hence the entry count and the bytes of
the entry inserted by the first application) unchanged and reports no
change (`changed = false`). -/
theorem update_imkvdb_idempotent (fb : Bytes) (game_id_hex : List Char) (folder_id : Nat)
    (fb1 : Bytes) (c1 : Bool)
    (h : update_imkvdb fb game_id_hex folder_id = .ok (fb1, c1)) :
    update_imkvdb fb1 game_id_hex folder_id = .ok (fb1, false) := by
  unfold update_imkvdb at h ⊢
  cases hp : parse_imkvdb fb with
  | error e =>
    cases e
    rw [hp, except_bind_error] at h
    injection h
  | ok E =>
    rw [hp, except_bind_ok] at h
    by_cases hfold : folder_id < 18446744073709551616
    case neg =>
      rw [if_neg hfold] at h
      injection h
    rw [if_pos hfold] at h
    cases hv : pyIntHexE (pyLower game_id_hex) with
    | error e =>
      cases e
      rw [hv, except_bind_error] at h
      injection h
    | ok v =>
      rw [hv, except_bind_ok] at h
      by_cases hv0 : v = 0
      · rw [if_pos hv0] at h
        obtain ⟨E1, hparse1, hups1⟩ := upsert_write_next (parse_imkvdb_nodup hp) hp h
        rw [hparse1, except_bind_ok, if_pos hfold, except_bind_ok, if_pos hv0]
        exact hups1
      · rw [if_neg hv0] at h
        cases hh : fromhexE (pyLower game_id_hex) with
        | error e =>
          cases e
          rw [hh, except_bind_error] at h
          injection h
        | ok hx =>
          rw [hh, except_bind_ok] at h
          by_cases hrange : v < 0 ∨ (18446744073709551616 : Int) ≤ v
          case pos =>
            rw [if_pos hrange] at h
            injection h
          rw [if_neg hrange] at h
          obtain ⟨E1, hparse1, hups1⟩ := upsert_write_next (parse_imkvdb_nodup hp) hp h
          rw [hparse1, except_bind_ok, if_pos hfold, except_bind_ok, if_neg hv0,
            except_bind_ok, if_neg hrange]
          exact hups1

/-- Witness for `update_imkvdb_idempotent`: inserting the spec's example
title id into an empty archive, then upserting again. -/
theorem update_imkvdb_idempotent_witness :
    update_imkvdb
      (IMKV ++ List.replicate 4 0 ++ pack_u32le 1 ++
        (IMEN ++ pack_u32le 64 ++ pack_u32le 64 ++
          (pack_u64le 72236573944897536 ++ [1] ++ List.replicate 23 0 ++ [1] ++ List.replicate 31 0) ++
          (pack_u64le 1 ++ List.replicate 16 0 ++ [1] ++ List.replicate 39 0)))
      (String.toList "0100a2c801c6e000") 1 =
    .ok (IMKV ++ List.replicate 4 0 ++ pack_u32le 1 ++
        (IMEN ++ pack_u32le 64 ++ pack_u32le 64 ++
          (pack_u64le 72236573944897536 ++ [1] ++ List.replicate 23 0 ++ [1] ++ List.replicate 31 0) ++
          (pack_u64le 1 ++ List.replicate 16 0 ++ [1] ++ List.replicate 39 0)), false) :=
  update_imkvdb_idempotent [] (String.toList "0100a2c801c6e000") 1 _ true (by decide)

/-! ## Helper lemmas: hexadecimal strings -/

lemma hex_not_ws {c : Char} (h : isHexDigit c = true) : isPyWs c = false := by
  simp only [isHexDigit, Bool.or_eq_true, Bool.and_eq_true, decide_eq_true_eq] at h
  simp only [isPyWs, Bool.or_eq_false_iff, decide_eq_false_iff_not]
  omega

lemma hex_toNat_facts {c : Char} (h : isHexDigit c = true) :
    c.toNat ≠ 43 ∧ c.toNat ≠ 45 ∧ c.toNat ≠ 120 ∧ c.toNat ≠ 88 := by
  simp only [isHexDigit, Bool.or_eq_true, Bool.and_eq_true, decide_eq_true_eq] at h
  omega

lemma hexVal_lt {c : Char} (h : isHexDigit c = true) : hexVal c < 16 := by
  simp only [isHexDigit, Bool.or_eq_true, Bool.and_eq_true, decide_eq_true_eq] at h
  unfold hexVal
  split
  · omega
  · split <;> omega

lemma dropWhile_eq_self_of_false {p : Char → Bool} {cs : List Char}
    (h : ∀ c ∈ cs, p c = false) : cs.dropWhile p = cs := by
  cases cs with
  | nil => rfl
  | cons c rest => simp [List.dropWhile_cons, h c (List.mem_cons_self c rest)]

lemma pyStrip_of_no_ws {cs : List Char} (h : ∀ c ∈ cs, isPyWs c = false) :
    pyStrip cs = cs := by
  unfold pyStrip
  rw [dropWhile_eq_self_of_false h,
    dropWhile_eq_self_of_false (fun c hc => h c (List.mem_reverse.mp hc)),
    List.reverse_reverse]

lemma hexTail_of_hex :
    ∀ (cs : List Char) (acc : Nat), (∀ c ∈ cs, isHexDigit c = true) →
      hexTail cs acc = some (cs.foldl (fun a c => a * 16 + hexVal c) acc)
  | [], _, _ => rfl
  | [c], acc, h => by
    rw [show hexTail [c] acc =
      (if isHexDigit c then some (acc * 16 + hexVal c) else none) from rfl,
      if_pos (h c (by simp))]
    simp
  | c :: d :: rest, acc, h => by
    rw [show hexTail (c :: d :: rest) acc =
      (if isHexDigit c then hexTail (d :: rest) (acc * 16 + hexVal c)
       else if c.toNat = 95 ∧ isHexDigit d then hexTail rest (acc * 16 + hexVal d)
       else none) from rfl,
      if_pos (h c (by simp)), List.foldl_cons]
    exact hexTail_of_hex (d :: rest) (acc * 16 + hexVal c) (fun x hx => h x (by simp [hx]))

lemma parseHexDigits_of_hex {cs : List Char} (hne : cs ≠ [])
    (h : ∀ c ∈ cs, isHexDigit c = true) :
    parseHexDigits cs = some (hexStrNat cs) := by
  cases cs with
  | nil => exact absurd rfl hne
  | cons c rest =>
    simp only [parseHexDigits, h c (List.mem_cons_self c rest), if_true]
    rw [hexTail_of_hex rest (hexVal c) (fun d hd => h d (List.mem_cons_of_mem c hd))]
    unfold hexStrNat
    simp [List.foldl_cons]

lemma pyIntHexCore_of_hex :
    ∀ (cs : List Char), cs ≠ [] → (∀ c ∈ cs, isHexDigit c = true) →
      pyIntHexCore cs = some (hexStrNat cs)
  | [], hne, _ => absurd rfl hne
  | [c], _, h => by
    rw [show pyIntHexCore [c] = parseHexDigits [c] from rfl]
    exact parseHexDigits_of_hex (by simp) h
  | c0 :: c1 :: rest, _, h => by
    rw [show pyIntHexCore (c0 :: c1 :: rest) =
      (if c0.toNat = 48 && (c1.toNat = 120 || c1.toNat = 88) then
        parseHexDigits (dropPrefixUnderscore rest)
      else parseHexDigits (c0 :: c1 :: rest)) from rfl]
    have h1 := hex_toNat_facts (h c1 (by simp))
    rw [if_neg (by simp [h1.2.2.1, h1.2.2.2])]
    exact parseHexDigits_of_hex (by simp) h

lemma pythonIntHex_of_hex {cs : List Char} (hne : cs ≠ [])
    (h : ∀ c ∈ cs, isHexDigit c = true) :
    pythonIntHex cs = some ((hexStrNat cs : Int)) := by
  unfold pythonIntHex
  rw [pyStrip_of_no_ws (fun c hc => hex_not_ws (h c hc))]
  cases cs with
  | nil => exact absurd rfl hne
  | cons c rest =>
    have hc := hex_toNat_facts (h c (by simp))
    show (if c.toNat = 43 then (pyIntHexCore rest).map (fun n => (n : Int))
      else if c.toNat = 45 then (pyIntHexCore rest).map (fun n => -(n : Int))
      else (pyIntHexCore (c :: rest)).map (fun n => (n : Int))) = _
    rw [if_neg hc.1, if_neg hc.2.1, pyIntHexCore_of_hex (c :: rest) (by simp) h]
    rfl

lemma foldl_hex_lt :
    ∀ (cs : List Char) (acc : Nat), (∀ c ∈ cs, isHexDigit c = true) →
      cs.foldl (fun a c => a * 16 + hexVal c) acc < (acc + 1) * 16 ^ cs.length := by
  intro cs
  induction cs with
  | nil => intro acc _; simp
  | cons c rest ih =>
    intro acc h
    simp only [List.foldl_cons, List.length_cons]
    calc rest.foldl (fun a c => a * 16 + hexVal c) (acc * 16 + hexVal c)
        < (acc * 16 + hexVal c + 1) * 16 ^ rest.length :=
          ih _ (fun d hd => h d (List.mem_cons_of_mem c hd))
      _ ≤ ((acc + 1) * 16) * 16 ^ rest.length := by
          have := hexVal_lt (h c (List.mem_cons_self c rest))
          exact Nat.mul_le_mul_right _ (by omega)
      _ = (acc + 1) * 16 ^ (rest.length + 1) := by ring

lemma hexStrNat_lt {cs : List Char} (h : ∀ c ∈ cs, isHexDigit c = true) :
    hexStrNat cs < 16 ^ cs.length := by
  have := foldl_hex_lt cs 0 h
  unfold hexStrNat
  omega

lemma hexStrNat_lt_u64 {cs : List Char} (hlen : cs.length = 16)
    (h : ∀ c ∈ cs, isHexDigit c = true) :
    hexStrNat cs < 18446744073709551616 := by
  have := hexStrNat_lt h
  rw [hlen] at this
  norm_num at this
  exact this

/-! ## Helper lemmas: bytes.fromhex -/

lemma fromhexCore_of_hex :
    ∀ (cs : List Char), (∀ c ∈ cs, isHexDigit c = true) → cs.length % 2 = 0 →
      ∃ bs, fromhexCore cs = some bs ∧ bs.length = cs.length / 2 ∧
        ∀ acc : Nat, bs.foldl (fun a b => a * 256 + b) acc =
          cs.foldl (fun a c => a * 16 + hexVal c) acc
  | [] => by
    intro _ _
    exact ⟨[], rfl, rfl, fun acc => rfl⟩
  | [c] => by
    intro _ hlen
    simp at hlen
  | c :: d :: rest => by
    intro h hlen
    obtain ⟨bs, hbs, hblen, hfold⟩ := fromhexCore_of_hex rest
      (fun x hx => h x (by simp [hx]))
      (by simp only [List.length_cons] at hlen ⊢; omega)
    have hc := h c (by simp)
    have hd := h d (by simp)
    refine ⟨(hexVal c * 16 + hexVal d) :: bs, ?_, ?_, ?_⟩
    · rw [show fromhexCore (c :: d :: rest) =
        (if isPyWs c then fromhexCore (d :: rest)
         else if isHexDigit c && isHexDigit d then
           (fromhexCore rest).map (fun bs => (hexVal c * 16 + hexVal d) :: bs)
         else none) from rfl]
      rw [if_neg (by simp [hex_not_ws hc]), if_pos (by simp [hc, hd]), hbs]
      rfl
    · simp only [List.length_cons, hblen]
      omega
    · intro acc
      simp only [List.foldl_cons]
      rw [show acc * 256 + (hexVal c * 16 + hexVal d) =
        (acc * 16 + hexVal c) * 16 + hexVal d from by ring]
      exact hfold _

lemma fromhex_of_hex {cs : List Char} (h : ∀ c ∈ cs, isHexDigit c = true)
    (hlen : cs.length % 2 = 0) :
    ∃ bs, fromhex cs = some bs ∧ bs.length = cs.length / 2 ∧
      int_from_bytes_be bs = hexStrNat cs := by
  obtain ⟨bs, hbs, hblen, hfold⟩ := fromhexCore_of_hex cs h hlen
  exact ⟨bs, hbs, hblen, hfold 0⟩

/-! ## Helper lemmas: metadata-record buffer -/

lemma unpack_le_pack_u64 {n : Nat} (h : n < 18446744073709551616) :
    unpack_le (pack_u64le n) = n := by
  simp only [pack_u64le, unpack_le, List.foldr]
  omega

lemma pack_u64le_length (n : Nat) : (pack_u64le n).length = 8 := rfl

lemma take8_append (b X : Bytes) (hb : b.length = 8) : (b ++ X).take 8 = b := by
  rw [← hb]
  exact List.take_left b X

lemma setslice_take8 {l : Bytes} {i : Nat} (j : Nat) (b : Bytes) (hi : 8 ≤ i)
    (hl : 8 ≤ l.length) : (bytearray_setslice l i j b).take 8 = l.take 8 := by
  unfold bytearray_setslice
  rw [List.take_append_of_le_length (by simp [List.length_append, List.length_take]; omega),
    List.take_append_of_le_length (by simp [List.length_take]; omega),
    List.take_take, Nat.min_eq_left hi]

lemma setslice_len8 {l : Bytes} {i : Nat} (j : Nat) (b : Bytes) (hi : 8 ≤ i)
    (hl : 8 ≤ l.length) : 8 ≤ (bytearray_setslice l i j b).length := by
  unfold bytearray_setslice
  simp only [List.length_append, List.length_take]
  omega

/-! ## C8 -/

/-- C8: the byte-level decoder of `read_game_id_from_extradata0` returns
(the canonical `016x` rendering of) the little-endian 64-bit integer formed
from the first 8 bytes whenever at least 8 bytes are available, returns
`None` when fewer than 8 bytes are available, and decoding a metadata
record produced by `create_extradata0_file` recovers exactly the title
identifier that was encoded. -/
theorem read_game_id_spec :
    (∀ bs : Bytes, 8 ≤ bs.length →
      read_game_id_from_extradata0 bs =
        some (format016x (Int.ofNat (unpack_le (bs.take 8))))) ∧
    (∀ bs : Bytes, bs.length < 8 → read_game_id_from_extradata0 bs = none) ∧
    (∀ (s u : List Char) (flags journal_size commit_id t : Bytes),
      s.length = 16 → (∀ c ∈ s, isHexDigit c = true) →
      create_extradata0_template s u flags journal_size commit_id = some t →
      read_game_id_from_extradata0 t =
        some (format016x (Int.ofNat (hexStrNat s))) ∧
      hexStrNat s < 18446744073709551616) := by
  have hlong : ∀ bs : Bytes, 8 ≤ bs.length →
      read_game_id_from_extradata0 bs =
        some (format016x (Int.ofNat (unpack_le (bs.take 8)))) := by
    intro bs h8
    have hlen : (bs.take 8).length = 8 := by
      rw [List.length_take]
      omega
    have hne : bs.take 8 ≠ [] := by
      intro hnil
      rw [hnil] at hlen
      simp at hlen
    unfold read_game_id_from_extradata0
    rw [if_neg hne, if_pos hlen]
  refine ⟨hlong, ?_, ?_⟩
  · intro bs h8
    unfold read_game_id_from_extradata0
    by_cases hnil : bs.take 8 = []
    · rw [if_pos hnil]
    · rw [if_neg hnil, if_neg ?hno]
      case hno =>
        rw [List.length_take]
        omega
  · intro s u flags journal_size commit_id t hslen hshex hcreate
    obtain ⟨gb, hgb, hgblen, hgbval⟩ := fromhex_of_hex hshex (by rw [hslen])
    have hu64 : hexStrNat s < 18446744073709551616 := hexStrNat_lt_u64 hslen hshex
    refine ⟨?_, hu64⟩
    unfold create_extradata0_template at hcreate
    rw [hgb] at hcreate
    cases hfu : fromhex u with
    | none =>
      rw [hfu] at hcreate
      simp at hcreate
    | some ub =>
      rw [hfu] at hcreate
      simp only [] at hcreate
      rw [hgbval] at hcreate
      rw [if_pos hu64] at hcreate
      injection hcreate with ht
      subst ht
      set gid := hexStrNat s with hgid
      set t1 := bytearray_setslice (List.replicate 512 0) 0 8 (pack_u64le gid) with ht1
      have ht1take : t1.take 8 = pack_u64le gid := by
        rw [ht1]
        unfold bytearray_setslice
        simp only [List.take_zero, List.nil_append]
        exact take8_append _ _ (pack_u64le_length gid)
      have ht1len : 8 ≤ t1.length := by
        rw [ht1]
        unfold bytearray_setslice
        simp only [List.length_append, List.length_take, pack_u64le_length]
        omega
      set t2 := bytearray_setslice t1 8 24 ub with ht2
      have ht2take : t2.take 8 = pack_u64le gid := by
        rw [ht2, setslice_take8 24 ub (by norm_num) ht1len, ht1take]
      have ht2len : 8 ≤ t2.length := setslice_len8 24 ub (by norm_num) ht1len
      set t3 := bytearray_setslice t2 64 72 (pack_u64le gid) with ht3
      have ht3take : t3.take 8 = pack_u64le gid := by
        rw [ht3, setslice_take8 72 _ (by norm_num) ht2len, ht2take]
      have ht3len : 8 ≤ t3.length := setslice_len8 72 _ (by norm_num) ht2len
      set t4 := bytearray_setslice t3 80 84 flags with ht4
      have ht4take : t4.take 8 = pack_u64le gid := by
        rw [ht4, setslice_take8 84 flags (by norm_num) ht3len, ht3take]
      have ht4len : 8 ≤ t4.length := setslice_len8 84 flags (by norm_num) ht3len
      set t5 := bytearray_setslice t4 96 104 journal_size with ht5
      have ht5take : t5.take 8 = pack_u64le gid := by
        rw [ht5, setslice_take8 104 journal_size (by norm_num) ht4len, ht4take]
      have ht5len : 8 ≤ t5.length := setslice_len8 104 journal_size (by norm_num) ht4len
      set t6 := bytearray_setslice t5 104 112 commit_id with ht6
      have ht6take : t6.take 8 = pack_u64le gid := by
        rw [ht6, setslice_take8 112 commit_id (by norm_num) ht5len, ht5take]
      have ht6len : 8 ≤ t6.length := setslice_len8 112 commit_id (by norm_num) ht5len
      rw [hlong t6 ht6len, ht6take, unpack_le_pack_u64 hu64]

set_option maxRecDepth 100000 in
/-- Witness for `read_game_id_spec`: a direct 8-byte read, and a full
encode/decode round trip through the default-argument template. -/
theorem read_game_id_spec_witness :
    read_game_id_from_extradata0 [1, 0, 0, 0, 0, 0, 0, 0] =
      some (String.toList "0000000000000001") ∧
    read_game_id_from_extradata0
        ((create_extradata0_template (String.toList "0100a2c801c6e000") default_user_id_hex
          default_flags default_journal_size default_commit_id).getD []) =
      some (String.toList "0100a2c801c6e000") :=
  ⟨(read_game_id_spec.1 [1, 0, 0, 0, 0, 0, 0, 0] (by decide)).trans (by decide),
   ((read_game_id_spec.2.2 (String.toList "0100a2c801c6e000") default_user_id_hex
      default_flags default_journal_size default_commit_id
      ((create_extradata0_template (String.toList "0100a2c801c6e000") default_user_id_hex
        default_flags default_journal_size default_commit_id).getD [])
      (by decide) (by decide) (by decide)).1).trans (by decide)⟩

end Checkpoint2Ryujinx
